import Mathlib

/-!
Verification of the `redis-lru` library (`src/redis_lru/lru.py`) against its
natural-language specification.

The development shallowly embeds the source:

* the CPython hashing primitives used by the memoization decorator
  (`hash` on ints, integral floats, tuples, frozensets, and plain objects)
  are implemented following CPython's published algorithms
  (`Objects/longobject.c`, `Python/pyhash.c`, `Objects/setobject.c`,
  `Objects/object.c`), with machine words as `Nat` reduced `% 2^64`;
* the backing store (a Redis instance) is a record of a key/value table with
  per-key deadlines, one sorted set (the access tracker) with its own
  deadline, and one hash of counters (the stat key) with its own deadline;
  every operation takes the current time `now : Nat` explicitly, standing for
  `time.time()`;
* the JSON codec (`json.dumps` / `json.loads`) is out of scope per the spec
  (an injected capability); it is modelled by a value type `JValue` for which
  encoding always succeeds and round-trips, a wrapper `PyObj` admitting
  non-encodable values, and stored bytes `EncVal` admitting non-decodable
  payloads.
-/

namespace RedisLRU

/-! ## CPython hashing model -/

/-- 2^64, the machine-word modulus for CPython's `Py_uhash_t` arithmetic. -/
def wordMod : Nat := 2 ^ 64

/-- CPython's modulus for integer hashing: the Mersenne prime 2^61 - 1
(`_PyHASH_MODULUS` in `Include/pyhash.h`). -/
def pyHashModulus : Nat := 2 ^ 61 - 1

/-- CPython `hash` of an `int` (`long_hash` in `Objects/longobject.c`): the
value reduced modulo 2^61 - 1, with the sign re-applied and the reserved
error value -1 replaced by -2. -/
def longHash (n : Int) : Int :=
  let m : Int := if 0 ≤ n then ((n.toNat % pyHashModulus : Nat) : Int)
                 else -(((-n).toNat % pyHashModulus : Nat) : Int)
  if m = -1 then -2 else m

/-- Interpret a signed CPython hash as an unsigned 64-bit word
(two's complement), as CPython does when mixing hashes. -/
def toU64 (i : Int) : Nat := (i % (wordMod : Int)).toNat

/-- Re-interpret an unsigned 64-bit word as a signed CPython hash. -/
def ofU64 (n : Nat) : Int := if n < 2 ^ 63 then (n : Int) else (n : Int) - (wordMod : Int)

/-- 64-bit rotate left. -/
def rotl64 (x r : Nat) : Nat := (((x <<< r) % wordMod) ||| (x >>> (64 - r))) % wordMod

/-- CPython tuple hashing (`tuplehash` in `Objects/tupleobject.c`, the
xxHash-based scheme of CPython >= 3.8), as a function of the element hashes:
a tuple's hash depends only on its length and its elements' hashes. -/
def tupleHashFold (hs : List Int) : Int :=
  let acc := hs.foldl
    (fun a h => ((rotl64 ((a + toU64 h * 14029467366897019727) % wordMod) 31)
      * 11400714785074694791) % wordMod)
    2870177450012600261
  let acc := (acc + (hs.length ^^^ (2870177450012600261 ^^^ 3527539))) % wordMod
  ofU64 (if acc = wordMod - 1 then 1546275796 else acc)

/-- The bit shuffle applied to each element hash when hashing a frozenset
(`_shuffle_bits` in `Objects/setobject.c`). -/
def shuffleBits (h : Nat) : Nat :=
  (((h ^^^ 89869747) ^^^ ((h <<< 16) % wordMod)) * 3644798167) % wordMod

/-- CPython frozenset hashing (`frozenset_hash` in `Objects/setobject.c`) as a
function of the element hashes (commutative in the elements). -/
def frozensetHashFold (hs : List Int) : Int :=
  let x := hs.foldl (fun a h => a ^^^ shuffleBits (toU64 h)) 0
  let x := (x ^^^ (((hs.length + 1) * 1927868237) % wordMod)) % wordMod
  let x := (x ^^^ ((x >>> 11) ^^^ (x >>> 25))) % wordMod
  let x := (x * 69069 + 907133923) % wordMod
  ofU64 (if x = wordMod - 1 then 590923713 else x)

/-- CPython's default object hash, used for objects (such as generator
objects) that define no `__hash__`: the object's address rotated right by
4 bits (`pointer_hash` in `Objects/object.c`), -1 replaced by -2.  The
argument is the object's `id`. -/
def pointerHash (p : Nat) : Int :=
  let r := ofU64 ((((p % wordMod) >>> 4) ||| ((p <<< 60) % wordMod)) % wordMod)
  if r = -1 then -2 else r

/-- A deterministic stand-in for CPython's string hash.  CPython hashes
`str` with SipHash keyed by a per-process random key; within one process it
is a fixed function of the string, which is all the development relies on
(no claim depends on a concrete string hash value). -/
def strHash (s : String) : Int :=
  longHash ((s.foldl (fun a c => (a * 31 + c.toNat) % wordMod) 7 : Nat) : Int)

/-- Python argument values appearing in memoized calls.  `vint` is an `int`;
`vfloat n` is a float of integral value `n` (the claims only involve such
floats, e.g. `1.0`); `vstr` a `str`; `vlist` a `list`, the representative
unhashable value. -/
inductive PyVal where
  | vint (n : Int)
  | vfloat (n : Int)
  | vstr (s : String)
  | vlist (xs : List PyVal)

/-- CPython `hash` on argument values; `none` models the `TypeError` raised
on unhashable values (lists).  Floats of integral value hash like the
corresponding int (`hash(1.0) == hash(1)`). -/
def pyHash : PyVal → Option Int
  | .vint n => some (longHash n)
  | .vfloat n => some (longHash n)
  | .vstr s => some (strHash s)
  | .vlist _ => none

/-- Hash of one `kwargs` item, a `(name, value)` tuple. -/
def kwItemHash (kv : String × PyVal) : Option Int :=
  (pyHash kv.2).map (fun h => tupleHashFold [strHash kv.1, h])

/-- `_hash_args` (lru.py lines 40-45):
`hash((hash(args), hash(frozenset(kwargs.items()))))`.
`none` models the `TypeError` propagated from an unhashable argument. -/
def hashArgs (args : List PyVal) (kwargs : List (String × PyVal)) : Option Int := do
  let has ← args.mapM pyHash
  let hks ← kwargs.mapM kwItemHash
  some (tupleHashFold [tupleHashFold has, frozensetHashFold hks])

/-- `_typed_hash_args` (lru.py lines 47-52):
`hash((_hash_args(args, kwargs), hash(type(x) for x in args),
hash(type(x) for x in kwargs.values())))`.

The two inner `hash(...)` calls hash *generator objects*, not tuples of
types: a generator expression has no `__hash__`, so CPython falls back to
the identity-based `pointerHash` of the freshly allocated generator.  The
generators are never iterated, so the arguments' types never enter the
hash.  `g1` and `g2` are the ids of the two generator objects created by
this particular call; CPython chooses them arbitrarily (fresh among live
objects) at each call. -/
def typedHashArgs (args : List PyVal) (kwargs : List (String × PyVal))
    (g1 g2 : Nat) : Option Int := do
  let h ← hashArgs args kwargs
  some (tupleHashFold [h, pointerHash g1, pointerHash g2])

/-- Python `hex(...)` applied to a hash, producing the cache key string used
by the decorator (lru.py line 71). -/
def hexKey (h : Int) : String :=
  (if h < 0 then "-0x" else "0x") ++ String.mk (Nat.toDigits 16 h.natAbs)

/-! ## JSON value model (the injected codec capability) -/

/-- JSON-encodable values: the payloads `json.dumps` accepts and
`json.loads` returns.  Numbers are modelled as integers. -/
inductive JValue where
  | jnull
  | jbool (b : Bool)
  | jnum (n : Int)
  | jstr (s : String)
  | jarr (xs : List JValue)
  | jobj (fields : List (String × JValue))

/-- A Python object handed to `set` or returned by a wrapped callable:
either JSON-encodable or not (e.g. a `set` instance), in which case
`json.dumps` raises. -/
inductive PyObj where
  | jsonable (v : JValue)
  | unjsonable

/-- Bytes stored under a value key: either the encoding of a `JValue`, or
foreign bytes on which `json.loads` fails. -/
inductive EncVal where
  | jsonBytes (v : JValue)
  | rawBytes (s : String)

/-- `json.dumps` (lru.py line 196) as the injected encoder: succeeds exactly
on JSON-encodable values.  Per spec section 1 the codec's byte format is out
of scope, so the encoding is kept abstractly as the value itself. -/
def dumps : PyObj → Option EncVal
  | .jsonable v => some (.jsonBytes v)
  | .unjsonable => none

/-- `json.loads` (lru.py line 237) as the injected decoder: inverts `dumps`
and fails on foreign bytes. -/
def loads : EncVal → Option JValue
  | .jsonBytes v => some v
  | .rawBytes _ => none

/-! ## Key namespacing -/

/-- The bytes of an ASCII string (identities and keys in the claims are
ASCII, on which UTF-8 encoding is the identity). -/
def strBytes (s : String) : List Nat := s.data.map Char.toNat

/-- `NAMESPACE_DELIMITER = b':'` (lru.py line 18). -/
def namespaceDelimiter : List Nat := strBytes ":"

/-- `PREFIX_DELIMITER = NAMESPACE_DELIMITER * 2` (lru.py line 19). -/
def prefixDelimiter : List Nat := namespaceDelimiter ++ namespaceDelimiter

/-- The physical value key built by the `joint_key` decorator (lru.py
line 92): `b'lru-value:' + self.unique_key + PREFIX_DELIMITER +
key.encode()`, at the byte level. -/
def jointKeyBytes (uniqueKey : List Nat) (key : String) : List Nat :=
  strBytes "lru-value:" ++ uniqueKey ++ prefixDelimiter ++ strBytes key

/-- Hex digits for Python's `\xhh` byte escapes. -/
def hexDigitChar (n : Nat) : Char :=
  if n < 10 then Char.ofNat (48 + n) else Char.ofNat (87 + n)

/-- Escape of one byte inside Python's `repr` of a `bytes` object
(`bytes_repr` in CPython `Objects/bytesobject.c`), given the chosen quote
byte `q`: backslash and the quote are backslash-escaped, tab / newline /
carriage return use their letter escapes, other non-printable bytes become
`\xhh`, and printable bytes stand for themselves. -/
def byteEscape (q c : Nat) : List Char :=
  if c = 92 then [Char.ofNat 92, Char.ofNat 92]
  else if c = q then [Char.ofNat 92, Char.ofNat q]
  else if c = 9 then [Char.ofNat 92, Char.ofNat 116]
  else if c = 10 then [Char.ofNat 92, Char.ofNat 110]
  else if c = 13 then [Char.ofNat 92, Char.ofNat 114]
  else if c < 32 ∨ 127 ≤ c then
    [Char.ofNat 92, Char.ofNat 120, hexDigitChar (c / 16), hexDigitChar (c % 16)]
  else [Char.ofNat c]

/-- Python's `repr` of a `bytes` object: `b` followed by the quoted, escaped
bytes.  The single quote is preferred; the double quote is used when the
bytes contain a single quote but no double quote. -/
def pyBytesRepr (bs : List Nat) : String :=
  let q : Nat := if 39 ∈ bs ∧ ¬ 34 ∈ bs then 34 else 39
  String.mk ([Char.ofNat 98, Char.ofNat q]
    ++ bs.flatMap (byteEscape q) ++ [Char.ofNat q])

/-- The tracker key `'lru-access:{}'.format(self.unique_key)` (lru.py
line 157).  `unique_key` is a `bytes` object, and `str.format` renders a
`bytes` argument via `repr`. -/
def accessKeyStr (uniqueKey : List Nat) : String :=
  "lru-access:" ++ pyBytesRepr uniqueKey

/-- The stat key `'lru-stat:{}'.format(self.unique_key)` (lru.py line 158). -/
def statKeyStr (uniqueKey : List Nat) : String :=
  "lru-stat:" ++ pyBytesRepr uniqueKey

/-! ## The backing store and the engine state -/

/-- Engine configuration: `max_size`, `expiration` (seconds) and the
engine's `unique_key` (as a string; the engine-level model works at the
string level, the byte-level key layout is treated above). -/
structure Cfg where
  maxSize : Nat
  expiration : Nat
  uniqueKey : String

/-- `EXPIRATION_STAT_KEY = 30 * 86400` (lru.py line 127). -/
def statKeyExpiration : Nat := 30 * 86400

/-- `self.once_clean_size = int(self.max_size * self.ONCE_CLEAN_RATIO)`
(lru.py line 160) with `ONCE_CLEAN_RATIO = 0.1`.  For every `max_size`
below 2^50 the float expression `int(max_size * 0.1)` equals
`max_size // 10` (0.1 is stored slightly above 1/10 and the product's
rounding error stays below the distance to the next lower integer), so the
model uses the exact floor. -/
def onceCleanSize (maxSize : Nat) : Nat := maxSize / 10

/-- The physical value key at the string level: `joint_key` for a given
engine (lru.py lines 89-94). -/
def physKey (cfg : Cfg) (key : String) : String :=
  "lru-value:" ++ cfg.uniqueKey ++ "::" ++ key

/-- Order on sorted-set entries `(member, score)`: by score, ties broken by
member, as Redis orders a zset. -/
def zle (a b : String × Nat) : Prop :=
  a.2 < b.2 ∨ (a.2 = b.2 ∧ a.1 ≤ b.1)

instance : DecidableRel zle := fun a b => by
  unfold zle; infer_instance

/-- The modelled Redis state reachable by one engine instance: the value
keys (payload and expiry deadline), the access-tracker sorted set and its
deadline, and the stat hash and its deadline.  Deadlines are absolute
times; a key is live at `now` exactly when `now` is before its deadline.
The three families of keys never collide (value keys start `lru-value:`,
the tracker is the single key `lru-access:...`, the stats the single key
`lru-stat:...`), so they are held in separate fields. -/
structure RState where
  kv : String → Option (EncVal × Nat)
  access : List (String × Nat)
  accessDl : Nat
  stats : String → Int
  statDl : Nat

/-- The empty store. -/
def initState : RState :=
  { kv := fun _ => none, access := [], accessDl := 0
    stats := fun _ => 0, statDl := 0 }

/-- Read a value key at time `now` (Redis returns nil once the deadline has
passed). -/
def kvGet (s : RState) (now : Nat) (pk : String) : Option EncVal :=
  match s.kv pk with
  | some (v, dl) => if now < dl then some v else none
  | none => none

/-- `SETEX`: store a payload under `pk` with deadline `dl`. -/
def kvSet (kv : String → Option (EncVal × Nat)) (pk : String) (v : EncVal)
    (dl : Nat) : String → Option (EncVal × Nat) :=
  fun x => if x = pk then some (v, dl) else kv x

/-- `DELETE` one value key. -/
def kvDel (kv : String → Option (EncVal × Nat)) (pk : String) :
    String → Option (EncVal × Nat) :=
  fun x => if x = pk then none else kv x

/-- The tracker as visible at time `now`: empty once its deadline passed. -/
def liveAccess (s : RState) (now : Nat) : List (String × Nat) :=
  if now < s.accessDl then s.access else []

/-- `ZCARD` of the tracker at time `now` — the engine's `size` property
(lru.py lines 168-170). -/
def zcard (s : RState) (now : Nat) : Nat := (liveAccess s now).length

/-- `ZADD`: upsert `(pk, score)` into a sorted-set listing, keeping the
listing sorted by `zle`. -/
def zaddOne (l : List (String × Nat)) (pk : String) (score : Nat) :
    List (String × Nat) :=
  List.orderedInsert zle (pk, score) (l.filter (fun e => e.1 != pk))

/-- The stat hash as visible at time `now`: all counters read 0 once its
deadline passed. -/
def statsAt (s : RState) (now : Nat) : String → Int :=
  if now < s.statDl then s.stats else fun _ => 0

/-- `HINCRBY field n` on a counter table. -/
def hincr (st : String → Int) (field : String) (n : Int) : String → Int :=
  fun g => if g = field then st g + n else st g

/-! ## Engine operations -/

/-- `_ensure_room` (lru.py lines 179-191).  If the tracker holds fewer than
`max_size` records, return `true` and leave the store alone.  Otherwise
fetch `ZRANGE(access_key, 0, once_clean_size)` — the `once_clean_size + 1`
entries of smallest score (the stop index is inclusive) — and in one
pipeline delete each fetched key, remove its tracker record, and increment
the POP counter by the number fetched; return `false`. -/
def ensureRoom (cfg : Cfg) (s : RState) (now : Nat) : Bool × RState :=
  if zcard s now < cfg.maxSize then (true, s)
  else
    let live := liveAccess s now
    let keys := (live.take (onceCleanSize cfg.maxSize + 1)).map Prod.fst
    (false,
      { s with
        kv := fun x => if keys.contains x then none else s.kv x
        access := live.filter (fun e => !(keys.contains e.1))
        stats := hincr (statsAt s now) "POP" keys.length })

/-- `__setitem__` (lru.py lines 193-212).  Encode the value; on encode
failure increment DUMPS_ERROR, refresh the stat key's expiry and write
nothing.  Otherwise run `_ensure_room`, then in one pipeline `SETEX` the
value key for `expiration` seconds, `ZADD` the access timestamp, refresh
the tracker's expiry, increment SET and refresh the stat key's expiry. -/
def setItem (cfg : Cfg) (s : RState) (now : Nat) (key : String)
    (value : PyObj) : RState :=
  match dumps value with
  | none =>
    { s with stats := hincr (statsAt s now) "DUMPS_ERROR" 1
             statDl := now + statKeyExpiration }
  | some b =>
    let s1 := (ensureRoom cfg s now).2
    let pk := physKey cfg key
    { s1 with
      kv := kvSet s1.kv pk b (now + cfg.expiration)
      access := zaddOne (liveAccess s1 now) pk now
      accessDl := now + cfg.expiration
      stats := hincr (statsAt s1 now) "SET" 1
      statDl := now + statKeyExpiration }

/-- `__getitem__` on an already-joined physical key (lru.py lines 224-252).
Absent (or expired) key: increment MISS, refresh the stat expiry, raise
`KeyError` — modelled as result `none`.  Present but undecodable: delete
the key, increment LOADS_ERROR, refresh the stat expiry, raise `KeyError`.
Present and decodable: `ZADD` a fresh access timestamp, refresh the
tracker's expiry, increment HIT, refresh the stat expiry, return the
decoded value. -/
def getItemPhys (cfg : Cfg) (s : RState) (now : Nat) (pk : String) :
    Option JValue × RState :=
  match kvGet s now pk with
  | none =>
    (none, { s with stats := hincr (statsAt s now) "MISS" 1
                    statDl := now + statKeyExpiration })
  | some b =>
    match loads b with
    | none =>
      (none, { s with kv := kvDel s.kv pk
                      stats := hincr (statsAt s now) "LOADS_ERROR" 1
                      statDl := now + statKeyExpiration })
    | some v =>
      (some v,
        { s with access := zaddOne (liveAccess s now) pk now
                 accessDl := now + cfg.expiration
                 stats := hincr (statsAt s now) "HIT" 1
                 statDl := now + statKeyExpiration })

/-- `__getitem__` on a logical (string) key: the `joint_key` wrapper joins
the key, then the body runs on the physical key. -/
def getItem (cfg : Cfg) (s : RState) (now : Nat) (key : String) :
    Option JValue × RState :=
  getItemPhys cfg s now (physKey cfg key)

/-- `__delitem__` (lru.py lines 214-222): delete the value key, remove its
tracker record, refresh the tracker's expiry, increment DEL and refresh the
stat expiry. -/
def delItem (cfg : Cfg) (s : RState) (now : Nat) (key : String) : RState :=
  let pk := physKey cfg key
  { s with
    kv := kvDel s.kv pk
    access := (liveAccess s now).filter (fun e => e.1 != pk)
    accessDl := now + cfg.expiration
    stats := hincr (statsAt s now) "DEL" 1
    statDl := now + statKeyExpiration }

/-! ## Python-level error surface -/

/-- The Python exceptions the modelled code can raise to its caller. -/
inductive PyErr where
  | keyError
  | attributeError
  | runtimeError
deriving DecidableEq

/-- The methods the injected store client (redis-py `StrictRedis`) actually
defines, among those this library refers to.  Attribute access on the
client for any other name raises `AttributeError`. -/
def redisClientMethods : List String :=
  ["get", "set", "setex", "delete", "exists", "zadd", "zrange", "zrem",
   "zcard", "hincrby", "hgetall", "expire", "pipeline"]

/-- `__contains__` (lru.py lines 254-256): `bool(self.client.exist(key))`.
The attribute `exist` is looked up on the client; were it defined, the
membership probe would report whether the physical key is live.  redis-py
defines `exists`, not `exist`, so the lookup raises `AttributeError`
before any store round trip. -/
def dictContains (cfg : Cfg) (s : RState) (now : Nat) (key : String) :
    Except PyErr Bool :=
  if redisClientMethods.contains "exist" then
    .ok (kvGet s now (physKey cfg key)).isSome
  else
    .error .attributeError

/-- A key as passed through Python: `str` from the caller, `bytes` once the
`joint_key` wrapper has joined it. -/
inductive PyKeyV where
  | pstr (s : String)
  | pbytes (s : String)

/-- `key.encode()` inside the `joint_key` wrapper (lru.py line 92): defined
on `str`; on `bytes` (a key that was already joined) it raises
`AttributeError`, since Python 3 `bytes` has no `encode` method. -/
def pyEncodeKey : PyKeyV → Except PyErr String
  | .pstr s => .ok s
  | .pbytes _ => .error .attributeError

/-- `__getitem__` as invoked through the `joint_key` wrapper on an
arbitrary Python key: encode and join the key, then run the body; a miss
or decode failure raises `KeyError`. -/
def getItemWrapped (cfg : Cfg) (s : RState) (now : Nat) (k : PyKeyV) :
    Except PyErr JValue × RState :=
  match pyEncodeKey k with
  | .error e => (.error e, s)
  | .ok ks =>
    match getItemPhys cfg s now (physKey cfg ks) with
    | (some v, s1) => (.ok v, s1)
    | (none, s1) => (.error .keyError, s1)

/-- The public `get` (lru.py lines 172-177).  The method is itself wrapped
in `joint_key`, so the wrapper first joins the caller's key; the body then
evaluates `self[key]` on the *already joined* key, which passes the joined
`bytes` through `joint_key` a second time.  Only `KeyError` is caught (the
`except KeyError` clause); any other exception propagates. -/
def dictGet (cfg : Cfg) (s : RState) (now : Nat) (k : PyKeyV)
    (default : Option JValue) : Except PyErr (Option JValue) × RState :=
  match pyEncodeKey k with
  | .error e => (.error e, s)
  | .ok ks =>
    let joined := physKey cfg ks
    match getItemWrapped cfg s now (.pbytes joined) with
    | (.ok v, s1) => (.ok (some v), s1)
    | (.error .keyError, s1) => (.ok default, s1)
    | (.error e, s1) => (.error e, s1)

/-! ## The memoization decorator -/

/-- One call of the decorated function `inner` (lru.py lines 68-84).

* Compute `hex(hasher(args, kwargs))`; a `TypeError` from hashing (an
  unhashable argument) is re-raised as
  `RuntimeError('All arguments to lru-cached functions must be hashable.')`
  before the cache is touched.
* Look the key up; on a hit return the cached value without calling `func`.
* On a `KeyError` (miss) call `func`, store the result, and return it.

`typed` selects `_typed_hash_args`; `g1`/`g2` are the ids of the two
generator objects that a typed call allocates (unused otherwise).  The
last component counts how many times `func` was invoked during this call
(0 or 1). -/
def innerCall (cfg : Cfg) (typed : Bool) (g1 g2 : Nat)
    (func : List PyVal → List (String × PyVal) → PyObj)
    (s : RState) (now : Nat) (args : List PyVal)
    (kwargs : List (String × PyVal)) :
    Except PyErr PyObj × RState × Nat :=
  match (if typed then typedHashArgs args kwargs g1 g2 else hashArgs args kwargs) with
  | none => (.error .runtimeError, s, 0)
  | some h =>
    let key := hexKey h
    match getItem cfg s now key with
    | (some v, s1) => (.ok (.jsonable v), s1, 0)
    | (none, s1) =>
      let value := func args kwargs
      let s2 := setItem cfg s1 now key value
      (.ok value, s2, 1)

/-! ## Operation traces -/

/-- One engine operation with its wall-clock time: a `set`, an item access,
or a delete. -/
inductive COp where
  | cset (t : Nat) (k : String) (v : PyObj)
  | cget (t : Nat) (k : String)
  | cdel (t : Nat) (k : String)

/-- The wall-clock time of an operation. -/
def opTime : COp → Nat
  | .cset t _ _ => t
  | .cget t _ => t
  | .cdel t _ => t

/-- Run one operation. -/
def runOp (cfg : Cfg) (s : RState) : COp → RState
  | .cset t k v => setItem cfg s t k v
  | .cget t k => (getItem cfg s t k).2
  | .cdel t k => delItem cfg s t k

/-- Run a list of operations in order. -/
def runOps (cfg : Cfg) (s : RState) : List COp → RState
  | [] => s
  | op :: rest => runOps cfg (runOp cfg s op) rest

/-- The times of the `set` operations on key `k` in a trace. -/
def setTimesOf (k : String) : List COp → List Nat
  | [] => []
  | .cset t k' _ :: rest =>
    if k' = k then t :: setTimesOf k rest else setTimesOf k rest
  | _ :: rest => setTimesOf k rest

/-- Times in a trace are non-decreasing (operations are issued in wall-clock
order). -/
def timesMono (ops : List COp) : Prop :=
  List.Chain' (· ≤ ·) (ops.map opTime)

/-- Deadline bound for key `k`: every live-or-expired stored entry under
`k`'s physical key got its deadline from some `set` at a time in `L`.
Entries are only ever created by `SETEX` inside `__setitem__`, which stamps
`set-time + expiration`. -/
def kvBound (cfg : Cfg) (s : RState) (k : String) (L : List Nat) : Prop :=
  ∀ v dl, s.kv (physKey cfg k) = some (v, dl) →
    ∃ ts ∈ L, dl = ts + cfg.expiration

/-- The engine-state invariant at current time `t`:

1. every stored entry's deadline is at most the tracker's deadline (the
   tracker is refreshed by every write that stamps an entry);
2. every entry still live at `t` has a tracker record;
3. tracker members are distinct (it is a set);
4. the tracker holds at most `max_size` records;
5. the tracker's deadline is at most `t + expiration` (it was last
   refreshed no later than `t`). -/
def InvT (cfg : Cfg) (s : RState) (t : Nat) : Prop :=
  (∀ pk v dl, s.kv pk = some (v, dl) → dl ≤ s.accessDl) ∧
  (∀ pk v dl, s.kv pk = some (v, dl) → t < dl → pk ∈ s.access.map Prod.fst) ∧
  (s.access.map Prod.fst).Nodup ∧
  s.access.length ≤ cfg.maxSize ∧
  s.accessDl ≤ t + cfg.expiration

/-- A small fixed engine configuration used by concrete witnesses. -/
def cfgW : Cfg := { maxSize := 3, expiration := 10, uniqueKey := "id" }

/-- A store holding one undecodable entry under logical key `k`
(deadline 10), used by the C9 witness. -/
def corruptState : RState :=
  { initState with
    kv := fun x => if x = physKey cfgW "k" then some (.rawBytes "oops", 10) else none }

/-! ## Theorems -/

/-- C4 (code bug): the "typed" argument hash does not fold in the runtime
types of the arguments at all.  (1) For any generator ids, `f(1)` and
`f(1.0)` produce the *same* typed hash — the two extra `hash(...)` calls
hash freshly created generator objects by identity and never inspect the
argument types, so equal-but-differently-typed arguments still collide,
contradicting the claim that typed mode separates them.  (2) The typed
hash is not even deterministic: the same call `f(1)` hashes differently
when the runtime allocates the generator objects at different addresses.
(3) With typed mode disabled, `f(1)` and `f(1.0)` do hash to the same key
(that half of the claim holds). -/
theorem c4_typed_hash_ignores_types :
    (∀ g1 g2 : Nat,
      typedHashArgs [.vint 1] [] g1 g2 = typedHashArgs [.vfloat 1] [] g1 g2) ∧
    typedHashArgs [.vint 1] [] 16 32 ≠ typedHashArgs [.vint 1] [] 48 64 ∧
    hashArgs [.vint 1] [] = hashArgs [.vfloat 1] [] :=
  ⟨fun _ _ => rfl, by decide, rfl⟩

/-- C6 (code bug): the membership probe never returns a boolean — for every
store state, time and key, `__contains__` raises `AttributeError`, because
it invokes `client.exist`, a method the redis client does not define
(redis-py exposes `exists`). -/
theorem c6_contains_raises (cfg : Cfg) (s : RState) (now : Nat) (key : String) :
    dictContains cfg s now key = .error .attributeError := rfl

/-- C10 (code bug): the public `get(k, d)` never returns the default or the
cached value — for every state, time, string key and default it raises
`AttributeError`, because `get` is itself wrapped in `joint_key` and its
body then re-enters the wrapped `__getitem__` with the already-joined
`bytes` key, on which the wrapper calls `.encode()`. -/
theorem c10_get_raises_attribute_error (cfg : Cfg) (s : RState) (now : Nat)
    (k : String) (d : Option JValue) :
    dictGet cfg s now (.pstr k) d = (.error .attributeError, s) := rfl

/-- C8: a call with an unhashable argument fails with the configuration
error (the source's `RuntimeError`, the spec's ConfigurationError) — an
outcome distinct from a cache miss, which `inner` converts into a computed
result, never an exception.  The store is left untouched and the wrapped
callable is invoked zero times. -/
theorem c8_unhashable_config_error (cfg : Cfg) (typed : Bool) (g1 g2 : Nat)
    (func : List PyVal → List (String × PyVal) → PyObj) (s : RState)
    (now : Nat) (args : List PyVal) (kwargs : List (String × PyVal))
    (h : hashArgs args kwargs = none) :
    innerCall cfg typed g1 g2 func s now args kwargs
      = (.error .runtimeError, s, 0) := by
  unfold innerCall
  cases typed <;> simp [typedHashArgs, h]

/-- Witness for C8 at a concrete input: a list argument is unhashable, and
the call errors out leaving the empty store unchanged with zero
invocations of the callable. -/
theorem c8_witness :
    hashArgs [.vlist []] [] = none ∧
    innerCall cfgW false 0 0 (fun _ _ => .jsonable .jnull) initState 0
        [.vlist []] [] = (.error .runtimeError, initState, 0) :=
  ⟨rfl, c8_unhashable_config_error cfgW false 0 0 _ initState 0 [.vlist []] [] rfl⟩

/-- C9: a present-but-undecodable entry is self-healing — `__getitem__`
reports a miss (`KeyError`, modelled as result `none`, never a decode
exception), deletes the stored entry, and increments the LOADS_ERROR
(DECODE_ERROR) counter by one while refreshing the stat key's expiry. -/
theorem c9_undecodable_self_heal (cfg : Cfg) (s : RState) (now : Nat)
    (k : String) (b : String) (dl : Nat)
    (hkv : s.kv (physKey cfg k) = some (.rawBytes b, dl)) (hlive : now < dl) :
    (getItem cfg s now k).1 = none ∧
    (getItem cfg s now k).2.kv (physKey cfg k) = none ∧
    (getItem cfg s now k).2.stats "LOADS_ERROR"
      = statsAt s now "LOADS_ERROR" + 1 ∧
    (getItem cfg s now k).2.statDl = now + statKeyExpiration := by
  unfold getItem getItemPhys kvGet
  rw [hkv]
  simp [hlive, loads, kvDel, hincr]

/-- Witness for C9 at a concrete store: an entry holding foreign bytes is
dropped, counted, and reported as a miss. -/
theorem c9_witness :
    (getItem cfgW corruptState 0 "k").1 = none ∧
    (getItem cfgW corruptState 0 "k").2.kv (physKey cfgW "k") = none ∧
    (getItem cfgW corruptState 0 "k").2.stats "LOADS_ERROR"
      = statsAt corruptState 0 "LOADS_ERROR" + 1 ∧
    (getItem cfgW corruptState 0 "k").2.statDl = 0 + statKeyExpiration :=
  c9_undecodable_self_heal cfgW corruptState 0 "k" "oops" 10 rfl (by decide)

/-- C7 counterexample: the tracker and stat key names are *not* the raw
`lru-access:<identity>` / `lru-stat:<identity>` of the claim.  For the
identity bytes `abc` the code produces `lru-access:b'abc'` — `str.format`
renders the `bytes` identity through `repr`, inserting the `b` prefix and
the quotes. -/
theorem c7_counterexample :
    accessKeyStr (strBytes "abc") ≠ "lru-access:" ++ "abc" ∧
    statKeyStr (strBytes "abc") ≠ "lru-stat:" ++ "abc" := by
  constructor <;> decide

/-- Two strings with the same character data are equal. -/
theorem string_data_inj {a b : String} (h : a.data = b.data) : a = b := by
  cases a; cases b; cases h; rfl

/-- On printable ASCII bytes that are neither a quote nor a backslash, the
byte-repr escape is the identity. -/
theorem byteEscape_printable (c : Nat) (h1 : 32 ≤ c) (h2 : c < 127)
    (h3 : c ≠ 39) (h4 : c ≠ 92) : byteEscape 39 c = [Char.ofNat c] := by
  unfold byteEscape
  rw [if_neg h4, if_neg h3, if_neg (by omega), if_neg (by omega),
    if_neg (by omega), if_neg (by omega)]

/-- The repr escape is the identity across a list of printable,
quote-and-backslash-free bytes. -/
theorem flatMap_byteEscape (u : List Nat)
    (h : ∀ c ∈ u, 32 ≤ c ∧ c < 127 ∧ c ≠ 39 ∧ c ≠ 92) :
    u.flatMap (byteEscape 39) = u.map Char.ofNat := by
  induction u with
  | nil => rfl
  | cons c tl ih =>
    obtain ⟨h1, h2, h3, h4⟩ := h c (List.mem_cons_self ..)
    rw [List.flatMap_cons, List.map_cons,
      ih (fun x hx => h x (List.mem_cons_of_mem _ hx)),
      byteEscape_printable c h1 h2 h3 h4]
    rfl

/-- Python's `repr` of a bytes object of printable ASCII characters free of
quotes and backslashes: `b`, a single quote, the characters themselves, and
a closing single quote. -/
theorem pyBytesRepr_printable (u : List Nat)
    (h : ∀ c ∈ u, 32 ≤ c ∧ c < 127 ∧ c ≠ 39 ∧ c ≠ 92) :
    pyBytesRepr u
      = String.mk (Char.ofNat 98 :: Char.ofNat 39
          :: (u.map Char.ofNat ++ [Char.ofNat 39])) := by
  unfold pyBytesRepr
  have h39 : ¬ (39 ∈ u ∧ ¬ 34 ∈ u) := by
    rintro ⟨h1, -⟩
    exact absurd rfl (h 39 h1).2.2.1
  rw [if_neg h39]
  show String.mk ([Char.ofNat 98, Char.ofNat 39]
    ++ u.flatMap (byteEscape 39) ++ [Char.ofNat 39]) = _
  rw [flatMap_byteEscape u h]
  congr 1

/-- C7 (amended): the entry keys are bit-exactly
`lru-value:<identity>::<logical-key>` with the raw identity bytes, but the
tracker and stat keys embed the Python `repr` of the identity bytes rather
than the raw bytes: for a printable identity free of quotes and
backslashes they read `lru-access:b` + quote + identity + quote and
`lru-stat:b` + quote + identity + quote (with a `b` and two quote
characters inserted). -/
theorem c7_amended_key_layout :
    (∀ (u : List Nat) (k : String),
      jointKeyBytes u k
        = strBytes "lru-value:" ++ u ++ strBytes "::" ++ strBytes k) ∧
    (∀ u : List Nat, (∀ c ∈ u, 32 ≤ c ∧ c < 127 ∧ c ≠ 39 ∧ c ≠ 92) →
      accessKeyStr u
        = "lru-access:b" ++ String.singleton (Char.ofNat 39)
            ++ String.mk (u.map Char.ofNat) ++ String.singleton (Char.ofNat 39) ∧
      statKeyStr u
        = "lru-stat:b" ++ String.singleton (Char.ofNat 39)
            ++ String.mk (u.map Char.ofNat) ++ String.singleton (Char.ofNat 39)) := by
  refine ⟨fun u k => rfl, fun u h => ⟨?_, ?_⟩⟩
  · apply string_data_inj
    show ("lru-access:" : String).data ++ (pyBytesRepr u).data = _
    rw [pyBytesRepr_printable u h]
    have hb : ("lru-access:b" : String).data
        = ("lru-access:" : String).data ++ [Char.ofNat 98] := by decide
    show _ = ("lru-access:b" : String).data ++ [Char.ofNat 39]
      ++ u.map Char.ofNat ++ [Char.ofNat 39]
    rw [hb]
    simp
  · apply string_data_inj
    show ("lru-stat:" : String).data ++ (pyBytesRepr u).data = _
    rw [pyBytesRepr_printable u h]
    have hb : ("lru-stat:b" : String).data
        = ("lru-stat:" : String).data ++ [Char.ofNat 98] := by decide
    show _ = ("lru-stat:b" : String).data ++ [Char.ofNat 39]
      ++ u.map Char.ofNat ++ [Char.ofNat 39]
    rw [hb]
    simp

/-- Witness for the amended C7 at the identity `abc` and logical key `x`. -/
theorem c7_witness :
    jointKeyBytes (strBytes "abc") "x"
      = strBytes "lru-value:" ++ strBytes "abc" ++ strBytes "::" ++ strBytes "x" ∧
    accessKeyStr (strBytes "abc")
      = "lru-access:b" ++ String.singleton (Char.ofNat 39)
          ++ String.mk ((strBytes "abc").map Char.ofNat)
          ++ String.singleton (Char.ofNat 39) ∧
    statKeyStr (strBytes "abc")
      = "lru-stat:b" ++ String.singleton (Char.ofNat 39)
          ++ String.mk ((strBytes "abc").map Char.ofNat)
          ++ String.singleton (Char.ofNat 39) :=
  ⟨c7_amended_key_layout.1 (strBytes "abc") "x",
   (c7_amended_key_layout.2 (strBytes "abc") (by decide)).1,
   (c7_amended_key_layout.2 (strBytes "abc") (by decide)).2⟩

/-- Distinct logical keys join to distinct physical keys (the logical key
is the suffix after a fixed prefix). -/
theorem physKey_inj (cfg : Cfg) {k1 k2 : String}
    (h : physKey cfg k1 = physKey cfg k2) : k1 = k2 := by
  have h2 : ("lru-value:" ++ cfg.uniqueKey ++ "::").data ++ k1.data
      = ("lru-value:" ++ cfg.uniqueKey ++ "::").data ++ k2.data :=
    congrArg String.data h
  exact string_data_inj (List.append_cancel_left h2)

/-- `_ensure_room` never creates or overwrites a value key: each key keeps
its binding or is deleted. -/
theorem ensureRoom_kv_le (cfg : Cfg) (s : RState) (now : Nat) (pk : String) :
    (ensureRoom cfg s now).2.kv pk = s.kv pk
      ∨ (ensureRoom cfg s now).2.kv pk = none := by
  unfold ensureRoom
  by_cases h : zcard s now < cfg.maxSize
  · rw [if_pos h]
    left; rfl
  · rw [if_neg h]
    dsimp only
    split
    · right; rfl
    · left; rfl

/-- A successful `set` stamps the entry with deadline `now + expiration`. -/
theorem setItem_kv_same (cfg : Cfg) (s : RState) (t : Nat) (k : String)
    (v : PyObj) (b : EncVal) (hb : dumps v = some b) :
    (setItem cfg s t k v).kv (physKey cfg k)
      = some (b, t + cfg.expiration) := by
  unfold setItem
  rw [hb]
  simp [kvSet]

/-- `set` on key `k` extends the deadline provenance of `k` by its own
time. -/
theorem kvBound_setItem_same (cfg : Cfg) (s : RState) (t : Nat) (k : String)
    (v : PyObj) (L : List Nat) (h : kvBound cfg s k L) :
    kvBound cfg (setItem cfg s t k v) k (L ++ [t]) := by
  intro w dl hw
  unfold setItem at hw
  cases hv : dumps v with
  | none =>
    rw [hv] at hw
    obtain ⟨ts, hts, hdl⟩ := h w dl hw
    exact ⟨ts, by simp [hts], hdl⟩
  | some b =>
    rw [hv] at hw
    simp only [kvSet, if_pos rfl] at hw
    exact ⟨t, by simp, (by injection hw with h1; injection h1 with _ h2; omega)⟩

/-- `set` on a different key leaves `k`'s deadline provenance intact. -/
theorem kvBound_setItem_other (cfg : Cfg) (s : RState) (t : Nat)
    (k' : String) (v : PyObj) (k : String) (L : List Nat) (hne : k' ≠ k)
    (h : kvBound cfg s k L) : kvBound cfg (setItem cfg s t k' v) k L := by
  intro w dl hw
  unfold setItem at hw
  cases hv : dumps v with
  | none =>
    rw [hv] at hw
    exact h w dl hw
  | some b =>
    rw [hv] at hw
    have hpk : physKey cfg k ≠ physKey cfg k' :=
      fun he => hne (physKey_inj cfg he.symm)
    simp only [kvSet, if_neg hpk] at hw
    rcases ensureRoom_kv_le cfg s t (physKey cfg k) with he | he
    · exact h w dl (he ▸ hw)
    · rw [he] at hw
      cases hw

/-- Item access never creates an entry: `k`'s deadline provenance is
preserved by `__getitem__` on any key. -/
theorem kvBound_getItem (cfg : Cfg) (s : RState) (t : Nat) (k' k : String)
    (L : List Nat) (h : kvBound cfg s k L) :
    kvBound cfg (getItem cfg s t k').2 k L := by
  intro w dl hw
  unfold getItem getItemPhys at hw
  rcases hg : kvGet s t (physKey cfg k') with _ | b <;>
    rw [hg] at hw <;> dsimp only at hw
  · exact h w dl hw
  · rcases hl : loads b with _ | v <;> rw [hl] at hw <;> dsimp only at hw
    · by_cases hc : physKey cfg k = physKey cfg k'
      · rw [show kvDel s.kv (physKey cfg k') (physKey cfg k) = none from by
          simp [kvDel, hc]] at hw
        cases hw
      · rw [show kvDel s.kv (physKey cfg k') (physKey cfg k)
            = s.kv (physKey cfg k) from by simp [kvDel, hc]] at hw
        exact h w dl hw
    · exact h w dl hw

/-- Deletion never creates an entry either. -/
theorem kvBound_delItem (cfg : Cfg) (s : RState) (t : Nat) (k' k : String)
    (L : List Nat) (h : kvBound cfg s k L) :
    kvBound cfg (delItem cfg s t k') k L := by
  intro w dl hw
  unfold delItem at hw
  dsimp only at hw
  by_cases hc : physKey cfg k = physKey cfg k'
  · rw [show kvDel s.kv (physKey cfg k') (physKey cfg k) = none from by
      simp [kvDel, hc]] at hw
    cases hw
  · rw [show kvDel s.kv (physKey cfg k') (physKey cfg k)
        = s.kv (physKey cfg k) from by simp [kvDel, hc]] at hw
    exact h w dl hw

/-- Running a trace extends `k`'s deadline provenance exactly by the times
of the trace's `set`s on `k`. -/
theorem kvBound_runOps (cfg : Cfg) (k : String) :
    ∀ (ops : List COp) (s : RState) (L : List Nat), kvBound cfg s k L →
      kvBound cfg (runOps cfg s ops) k (L ++ setTimesOf k ops) := by
  intro ops
  induction ops with
  | nil =>
    intro s L h
    simpa [runOps, setTimesOf] using h
  | cons op rest ih =>
    intro s L h
    cases op with
    | cset t k' v =>
      by_cases hk : k' = k
      · subst hk
        have := ih (setItem cfg s t k' v) (L ++ [t])
          (kvBound_setItem_same cfg s t k' v L h)
        simpa [runOps, runOp, setTimesOf, List.append_assoc] using this
      · have := ih (setItem cfg s t k' v) L
          (kvBound_setItem_other cfg s t k' v k L hk h)
        simpa [runOps, runOp, setTimesOf, hk] using this
    | cget t k' =>
      have := ih (getItem cfg s t k').2 L (kvBound_getItem cfg s t k' k L h)
      simpa [runOps, runOp, setTimesOf] using this
    | cdel t k' =>
      have := ih (delItem cfg s t k') L (kvBound_delItem cfg s t k' k L h)
      simpa [runOps, runOp, setTimesOf] using this

/-- C1: (a) from any state, `set(k, v)` with a JSON-encodable `v` followed
by item access of `k` strictly before `expiration` seconds have elapsed
returns a value equal to `v`; (b) starting from an empty store, after any
sequence of engine operations whose every `set` of `k` happened
`expiration` or more seconds before `t`, accessing `k` at `t` yields a
miss (`KeyError`, modelled as `none`) — in particular this covers the
claim's hypothesis that `expiration` elapsed since the last `set`/`get` of
`k`, since an access never extends the entry's own deadline. -/
theorem c1_set_get_expiration :
    (∀ (cfg : Cfg) (s : RState) (now1 now2 : Nat) (k : String) (v : JValue),
      now1 ≤ now2 → now2 < now1 + cfg.expiration →
      (getItem cfg (setItem cfg s now1 k (.jsonable v)) now2 k).1 = some v) ∧
    (∀ (cfg : Cfg) (ops : List COp) (k : String) (t : Nat),
      (∀ ts ∈ setTimesOf k ops, ts + cfg.expiration ≤ t) →
      (getItem cfg (runOps cfg initState ops) t k).1 = none) := by
  constructor
  · intro cfg s now1 now2 k v h1 h2
    have hset := setItem_kv_same cfg s now1 k (.jsonable v) (.jsonBytes v) rfl
    unfold getItem getItemPhys kvGet
    rw [hset]
    simp [h2, loads]
  · intro cfg ops k t hts
    have hb := kvBound_runOps cfg k ops initState []
      (by intro w dl h; simp [initState] at h)
    unfold getItem getItemPhys kvGet
    rcases hkv : (runOps cfg initState ops).kv (physKey cfg k) with _ | ⟨w, dl⟩
    · simp [hkv]
    · obtain ⟨ts, hmem, hdl⟩ := hb w dl hkv
      have hnl : ¬ t < dl := by
        have := hts ts (by simpa using hmem)
        omega
      simp [hkv, hnl]

/-- Witness for C1: a concrete set-then-get within the TTL returns the
value, and a get 100 seconds after a single set at time 0 (TTL 10)
misses. -/
theorem c1_witness :
    (getItem cfgW (setItem cfgW initState 0 "k" (.jsonable (.jnum 5))) 1 "k").1
      = some (.jnum 5) ∧
    (getItem cfgW
      (runOps cfgW initState [.cset 0 "k" (.jsonable (.jnum 5))]) 100 "k").1
      = none :=
  ⟨c1_set_get_expiration.1 cfgW initState 0 1 "k" (.jnum 5)
      (by decide) (by decide),
   c1_set_get_expiration.2 cfgW [.cset 0 "k" (.jsonable (.jnum 5))] "k" 100
      (by decide)⟩

/-- Filtering out (by member) the first `n` entries of a member-distinct
listing leaves exactly the entries after the first `n`. -/
theorem filter_take_drop :
    ∀ (l : List (String × Nat)) (n : Nat), (l.map Prod.fst).Nodup →
      l.filter (fun e => !(((l.take n).map Prod.fst).contains e.1))
        = l.drop n := by
  intro l
  induction l with
  | nil =>
    intro n _
    simp
  | cons e tl ih =>
    intro n hnd
    rw [List.map_cons] at hnd
    rcases List.nodup_cons.mp hnd with ⟨hne, htnd⟩
    cases n with
    | zero => exact List.filter_eq_self.mpr (fun a _ => rfl)
    | succ n =>
      rw [List.take_succ_cons, List.map_cons, List.drop_succ_cons,
        List.filter_cons]
      have hpe : (!((e.1 :: (tl.take n).map Prod.fst).contains e.1)) = false := by
        simp
      rw [hpe]
      rw [show tl.filter (fun x => !((e.1 :: (tl.take n).map Prod.fst).contains x.1))
          = tl.filter (fun x => !(((tl.take n).map Prod.fst).contains x.1)) from
        List.filter_congr (by
          intro a ha
          have hane : a.1 ≠ e.1 := by
            intro hcontra
            exact hne (hcontra ▸ List.mem_map_of_mem Prod.fst ha)
          simp [List.contains_cons, hane])]
      exact ih n htnd

/-- Under the eviction threshold check the tracker must be live and
coincide with its raw listing. -/
theorem liveAccess_of_full (cfg : Cfg) (s : RState) (now : Nat)
    (hsize : cfg.maxSize ≤ zcard s now) (hmax : 1 ≤ cfg.maxSize) :
    liveAccess s now = s.access := by
  unfold zcard liveAccess at *
  by_cases hdl : now < s.accessDl
  · simp [hdl]
  · simp [hdl] at hsize
    omega

/-- C2: an over-capacity eviction pass removes exactly the
`once_clean_size + 1` entries with the smallest access timestamps (the
inclusive `ZRANGE` stop index accounts for the extra key the claim
tolerates): the pass reports that a sweep ran, the evicted records are the
first `once_clean_size + 1` of the score-ordered tracker, their value keys
are deleted, every retained record's timestamp is at least every evicted
one's, and POP grows by the number evicted. -/
theorem c2_eviction_oldest_first (cfg : Cfg) (s : RState) (now : Nat)
    (hsorted : List.Pairwise zle s.access)
    (hnd : (s.access.map Prod.fst).Nodup)
    (hsize : cfg.maxSize ≤ zcard s now) (hmax : 1 ≤ cfg.maxSize) :
    (ensureRoom cfg s now).1 = false ∧
    (s.access.take (onceCleanSize cfg.maxSize + 1)).length
      = onceCleanSize cfg.maxSize + 1 ∧
    (ensureRoom cfg s now).2.access
      = s.access.drop (onceCleanSize cfg.maxSize + 1) ∧
    (∀ e ∈ s.access.take (onceCleanSize cfg.maxSize + 1),
      (ensureRoom cfg s now).2.kv e.1 = none) ∧
    (∀ e ∈ s.access.take (onceCleanSize cfg.maxSize + 1),
      ∀ r ∈ s.access.drop (onceCleanSize cfg.maxSize + 1), e.2 ≤ r.2) ∧
    (ensureRoom cfg s now).2.stats "POP"
      = statsAt s now "POP" + (onceCleanSize cfg.maxSize + 1) := by
  have hnlt : ¬ zcard s now < cfg.maxSize := not_lt.mpr hsize
  have hlive := liveAccess_of_full cfg s now hsize hmax
  have hocs : onceCleanSize cfg.maxSize < cfg.maxSize :=
    Nat.div_lt_self (by omega) (by omega)
  have hlen : onceCleanSize cfg.maxSize + 1 ≤ s.access.length := by
    have h2 : cfg.maxSize ≤ s.access.length := by
      unfold zcard at hsize
      rw [hlive] at hsize
      exact hsize
    omega
  unfold ensureRoom
  rw [if_neg hnlt, hlive]
  dsimp only
  refine ⟨rfl, ?_, ?_, ?_, ?_, ?_⟩
  · rw [List.length_take]
    omega
  · exact filter_take_drop s.access _ hnd
  · intro e he
    split
    · rfl
    · next hfalse =>
        exact absurd (by
          simp only [List.contains_iff_exists_mem_beq]
          exact ⟨e.1, List.mem_map_of_mem Prod.fst he, by simp⟩) hfalse
  · intro e he r hr
    have hsp : List.Pairwise zle
        (s.access.take (onceCleanSize cfg.maxSize + 1)
          ++ s.access.drop (onceCleanSize cfg.maxSize + 1)) := by
      rw [List.take_append_drop]
      exact hsorted
    have hzle : zle e r := (List.pairwise_append.mp hsp).2.2 e he r hr
    rcases hzle with hlt | ⟨heq, -⟩
    · omega
    · omega
  · show hincr (statsAt s now) "POP" _ "POP" = _
    unfold hincr
    rw [if_pos rfl]
    congr 1
    rw [List.length_map, List.length_take]
    simp
    omega

/-- Witness for C2 on a concrete full tracker: `max_size = 2`, tracker
`[(a,1), (b,2)]`, `once_clean_size = 0`; the pass evicts exactly `(a,1)`. -/
theorem c2_witness :
    ((ensureRoom { maxSize := 2, expiration := 10, uniqueKey := "id" }
        { initState with access := [("a", 1), ("b", 2)], accessDl := 5 } 0).1
      = false) ∧
    ((ensureRoom { maxSize := 2, expiration := 10, uniqueKey := "id" }
        { initState with access := [("a", 1), ("b", 2)], accessDl := 5 } 0).2.access
      = [("b", 2)]) := by
  have h := c2_eviction_oldest_first
    { maxSize := 2, expiration := 10, uniqueKey := "id" }
    { initState with access := [("a", 1), ("b", 2)], accessDl := 5 } 0
    (by decide) (by decide) (by decide) (by decide)
  exact ⟨h.1, h.2.2.1⟩

/-- `ZADD` is, up to order, the upsert: the new record consed onto the
listing purged of the member. -/
theorem zaddOne_perm (l : List (String × Nat)) (pk : String) (t : Nat) :
    (zaddOne l pk t).Perm ((pk, t) :: l.filter (fun e => e.1 != pk)) :=
  List.perm_orderedInsert _ _ _

/-- Length of a `ZADD` result. -/
theorem zaddOne_length (l : List (String × Nat)) (pk : String) (t : Nat) :
    (zaddOne l pk t).length
      = (l.filter (fun e => e.1 != pk)).length + 1 := by
  simpa using (zaddOne_perm l pk t).length_eq

/-- The upserted member is tracked after a `ZADD`. -/
theorem pk_mem_zaddOne (l : List (String × Nat)) (pk : String) (t : Nat) :
    pk ∈ (zaddOne l pk t).map Prod.fst := by
  rw [((zaddOne_perm l pk t).map Prod.fst).mem_iff]
  simp

/-- Every previously tracked member is still tracked after a `ZADD`. -/
theorem mem_fst_zaddOne (l : List (String × Nat)) (pk : String) (t : Nat)
    (x : String) (hx : x ∈ l.map Prod.fst) :
    x ∈ (zaddOne l pk t).map Prod.fst := by
  rw [((zaddOne_perm l pk t).map Prod.fst).mem_iff]
  by_cases hxpk : x = pk
  · simp [hxpk]
  · rcases List.mem_map.mp hx with ⟨e, he, rfl⟩
    refine List.mem_cons_of_mem _ (List.mem_map_of_mem Prod.fst ?_)
    exact List.mem_filter.mpr ⟨he, by simpa using hxpk⟩

/-- `ZADD` keeps tracker members distinct. -/
theorem nodup_fst_zaddOne (l : List (String × Nat)) (pk : String) (t : Nat)
    (h : (l.map Prod.fst).Nodup) :
    ((zaddOne l pk t).map Prod.fst).Nodup := by
  rw [((zaddOne_perm l pk t).map Prod.fst).nodup_iff]
  rw [List.map_cons, List.nodup_cons]
  constructor
  · intro hmem
    rcases List.mem_map.mp hmem with ⟨e, he, hfst⟩
    have := (List.mem_filter.mp he).2
    rw [hfst] at this
    simp at this
  · exact ((List.filter_sublist l).map Prod.fst).nodup h

/-- Purging a tracked member shortens a member-distinct listing by exactly
one record. -/
theorem filter_ne_length_of_mem :
    ∀ (l : List (String × Nat)) (pk : String), (l.map Prod.fst).Nodup →
      pk ∈ l.map Prod.fst →
      (l.filter (fun e => e.1 != pk)).length + 1 = l.length := by
  intro l
  induction l with
  | nil =>
    intro pk _ hm
    simp at hm
  | cons e tl ih =>
    intro pk hnd hm
    rw [List.map_cons] at hnd hm
    rcases List.nodup_cons.mp hnd with ⟨hne, htnd⟩
    by_cases hepk : e.1 = pk
    · rw [List.filter_cons_of_neg (by simp [hepk])]
      rw [List.filter_eq_self.mpr (fun a ha => by
        have : a.1 ≠ pk := by
          intro hc
          exact hne (hepk ▸ hc ▸ List.mem_map_of_mem Prod.fst ha)
        simpa using this)]
      simp
    · rw [List.filter_cons_of_pos (by simpa using hepk)]
      have hm2 : pk ∈ tl.map Prod.fst := by
        rcases List.mem_cons.mp hm with h1 | h1
        · exact absurd h1.symm hepk
        · exact h1
      have := ih pk htnd hm2
      simp only [List.length_cons]
      omega

/-- The invariant weakens as time advances. -/
theorem invT_mono (cfg : Cfg) (s : RState) {t t' : Nat} (h : InvT cfg s t)
    (htt : t ≤ t') : InvT cfg s t' := by
  obtain ⟨hA, hB, hC, hD, hE⟩ := h
  exact ⟨hA, fun pk v dl hkv hlt => hB pk v dl hkv (by omega), hC, hD, by omega⟩

/-- The empty store satisfies the invariant at any time. -/
theorem invT_init (cfg : Cfg) (t : Nat) : InvT cfg initState t := by
  refine ⟨?_, ?_, ?_, ?_, ?_⟩ <;> simp [initState]

/-- `_ensure_room` preserves the invariant and leaves at least one slot of
headroom in the live tracker; it never touches the tracker's deadline. -/
theorem ensureRoom_invT (cfg : Cfg) (s : RState) (t : Nat)
    (hmax : 1 ≤ cfg.maxSize) (h : InvT cfg s t) :
    InvT cfg (ensureRoom cfg s t).2 t ∧
    (liveAccess (ensureRoom cfg s t).2 t).length + 1 ≤ cfg.maxSize ∧
    (ensureRoom cfg s t).2.accessDl = s.accessDl := by
  obtain ⟨hA, hB, hC, hD, hE⟩ := h
  unfold ensureRoom
  by_cases hlt : zcard s t < cfg.maxSize
  · rw [if_pos hlt]
    refine ⟨⟨hA, hB, hC, hD, hE⟩, ?_, rfl⟩
    show (liveAccess s t).length + 1 ≤ cfg.maxSize
    unfold zcard at hlt
    omega
  · rw [if_neg hlt]
    have hlive : liveAccess s t = s.access :=
      liveAccess_of_full cfg s t (not_lt.mp hlt) hmax
    have hdl : t < s.accessDl := by
      unfold liveAccess at hlive
      by_contra hc
      rw [if_neg hc] at hlive
      unfold zcard liveAccess at hlt
      rw [if_neg hc] at hlt
      simp at hlt
      omega
    dsimp only
    rw [hlive]
    have hocs : onceCleanSize cfg.maxSize < cfg.maxSize :=
      Nat.div_lt_self (by omega) (by omega)
    have hlen : cfg.maxSize ≤ s.access.length := by
      unfold zcard at hlt
      rw [hlive] at hlt
      omega
    rw [filter_take_drop s.access (onceCleanSize cfg.maxSize + 1) hC]
    refine ⟨⟨?_, ?_, ?_, ?_, hE⟩, ?_, rfl⟩
    · intro pk v dl hkv
      dsimp only at hkv
      split at hkv
      · cases hkv
      · exact hA pk v dl hkv
    · intro pk v dl hkv hplt
      dsimp only at hkv
      split at hkv
      · cases hkv
      · next hnc =>
          have hmem := hB pk v dl hkv hplt
          have hsplit : pk ∈ (s.access.take (onceCleanSize cfg.maxSize + 1)).map
              Prod.fst ∨ pk ∈ (s.access.drop (onceCleanSize cfg.maxSize + 1)).map
              Prod.fst := by
            rw [← List.mem_append, ← List.map_append, List.take_append_drop]
            exact hmem
          rcases hsplit with hm | hm
          · exact absurd (by
              simp only [List.contains_iff_exists_mem_beq]
              exact ⟨pk, hm, by simp⟩) hnc
          · exact hm
    · exact ((List.drop_sublist _ _).map Prod.fst).nodup hC
    · calc (s.access.drop (onceCleanSize cfg.maxSize + 1)).length
          ≤ s.access.length := (List.drop_sublist _ _).length_le
        _ ≤ cfg.maxSize := hD
    · unfold liveAccess
      dsimp only
      split
      · rw [List.length_drop]
        omega
      · omega

/-- Unpack a live read: the raw binding exists and its deadline is in the
future. -/
theorem kvGet_some (s : RState) (now : Nat) (pk : String) (b : EncVal)
    (h : kvGet s now pk = some b) :
    ∃ dl, s.kv pk = some (b, dl) ∧ now < dl := by
  unfold kvGet at h
  rcases hk : s.kv pk with _ | ⟨w, dl⟩ <;> rw [hk] at h
  · cases h
  · dsimp only at h
    split at h
    · next hlt =>
        injection h with h1
        exact ⟨dl, by rw [h1], hlt⟩
    · cases h

/-- The live tracker is never longer than its raw listing. -/
theorem liveAccess_length_le (s : RState) (t : Nat) :
    (liveAccess s t).length ≤ s.access.length := by
  unfold liveAccess
  split <;> simp

/-- `__setitem__` preserves the engine invariant at its own time. -/
theorem invT_setItem (cfg : Cfg) (s : RState) (t : Nat) (k : String)
    (v : PyObj) (hmax : 1 ≤ cfg.maxSize) (h : InvT cfg s t) :
    InvT cfg (setItem cfg s t k v) t := by
  unfold setItem
  cases hv : dumps v with
  | none => exact h
  | some b =>
    obtain ⟨⟨hA, hB, hC, hD, hE⟩, hlen, hdl⟩ := ensureRoom_invT cfg s t hmax h
    refine ⟨?_, ?_, ?_, ?_, ?_⟩
    · intro pk w dl hkv
      dsimp only at hkv
      show dl ≤ t + cfg.expiration
      unfold kvSet at hkv
      split at hkv
      · injection hkv with h1
        injection h1 with _ h2
        omega
      · have := hA pk w dl hkv
        omega
    · intro pk w dl hkv hplt
      dsimp only at hkv ⊢
      unfold kvSet at hkv
      split at hkv
      · next heq =>
          rw [heq]
          exact pk_mem_zaddOne _ _ _
      · have hmem := hB pk w dl hkv hplt
        have hdlk := hA pk w dl hkv
        have hlivea : liveAccess (ensureRoom cfg s t).2 t
            = (ensureRoom cfg s t).2.access := by
          unfold liveAccess
          rw [if_pos (by rw [hdl]; omega)]
        rw [hlivea]
        exact mem_fst_zaddOne _ _ _ pk hmem
    · dsimp only
      apply nodup_fst_zaddOne
      unfold liveAccess
      split
      · exact hC
      · simp
    · dsimp only
      rw [zaddOne_length]
      have := List.length_filter_le (fun e => e.1 != physKey cfg k)
        (liveAccess (ensureRoom cfg s t).2 t)
      omega
    · dsimp only
      omega

/-- Evaluated form of `__getitem__` on a miss. -/
theorem getItem_miss_state (cfg : Cfg) (s : RState) (t : Nat) (k : String)
    (hg : kvGet s t (physKey cfg k) = none) :
    getItem cfg s t k
      = (none, { s with stats := hincr (statsAt s t) "MISS" 1
                        statDl := t + statKeyExpiration }) := by
  unfold getItem getItemPhys
  rw [hg]

/-- Evaluated form of `__getitem__` on a live but undecodable entry. -/
theorem getItem_loadserr_state (cfg : Cfg) (s : RState) (t : Nat)
    (k : String) (b : EncVal) (hg : kvGet s t (physKey cfg k) = some b)
    (hl : loads b = none) :
    getItem cfg s t k
      = (none, { s with kv := kvDel s.kv (physKey cfg k)
                        stats := hincr (statsAt s t) "LOADS_ERROR" 1
                        statDl := t + statKeyExpiration }) := by
  unfold getItem getItemPhys
  rw [hg]
  dsimp only
  rw [hl]

/-- Evaluated form of `__getitem__` on a hit. -/
theorem getItem_hit_state (cfg : Cfg) (s : RState) (t : Nat) (k : String)
    (b : EncVal) (w : JValue) (hg : kvGet s t (physKey cfg k) = some b)
    (hl : loads b = some w) :
    getItem cfg s t k
      = (some w,
          { s with access := zaddOne (liveAccess s t) (physKey cfg k) t
                   accessDl := t + cfg.expiration
                   stats := hincr (statsAt s t) "HIT" 1
                   statDl := t + statKeyExpiration }) := by
  unfold getItem getItemPhys
  rw [hg]
  dsimp only
  rw [hl]

/-- `__getitem__` preserves the engine invariant at its own time. -/
theorem invT_getItem (cfg : Cfg) (s : RState) (t : Nat) (k : String)
    (h : InvT cfg s t) : InvT cfg (getItem cfg s t k).2 t := by
  obtain ⟨hA, hB, hC, hD, hE⟩ := h
  rcases hg : kvGet s t (physKey cfg k) with _ | b
  · rw [getItem_miss_state cfg s t k hg]
    exact ⟨hA, hB, hC, hD, hE⟩
  · obtain ⟨dlk, hkvk, hltk⟩ := kvGet_some s t (physKey cfg k) b hg
    rcases hl : loads b with _ | w
    · rw [getItem_loadserr_state cfg s t k b hg hl]
      refine ⟨?_, ?_, hC, hD, hE⟩
      · intro pk v dl hkv
        dsimp only at hkv
        unfold kvDel at hkv
        split at hkv
        · cases hkv
        · exact hA pk v dl hkv
      · intro pk v dl hkv hplt
        dsimp only at hkv ⊢
        unfold kvDel at hkv
        split at hkv
        · cases hkv
        · exact hB pk v dl hkv hplt
    · rw [getItem_hit_state cfg s t k b w hg hl]
      have haccdl : t < s.accessDl := by
        have := hA _ _ _ hkvk
        omega
      have hlivea : liveAccess s t = s.access := by
        unfold liveAccess
        rw [if_pos haccdl]
      refine ⟨?_, ?_, ?_, ?_, ?_⟩
      · intro pk v dl hkv
        dsimp only at hkv ⊢
        have := hA pk v dl hkv
        omega
      · intro pk v dl hkv hplt
        dsimp only at hkv ⊢
        rw [hlivea]
        exact mem_fst_zaddOne _ _ _ pk (hB pk v dl hkv hplt)
      · dsimp only
        rw [hlivea]
        exact nodup_fst_zaddOne _ _ _ hC
      · dsimp only
        rw [hlivea, zaddOne_length,
          filter_ne_length_of_mem s.access (physKey cfg k) hC
            (hB _ _ _ hkvk hltk)]
        exact hD
      · dsimp only
        omega

/-- `__delitem__` preserves the engine invariant at its own time. -/
theorem invT_delItem (cfg : Cfg) (s : RState) (t : Nat) (k : String)
    (h : InvT cfg s t) : InvT cfg (delItem cfg s t k) t := by
  obtain ⟨hA, hB, hC, hD, hE⟩ := h
  unfold delItem
  refine ⟨?_, ?_, ?_, ?_, ?_⟩
  · intro pk v dl hkv
    dsimp only at hkv ⊢
    unfold kvDel at hkv
    split at hkv
    · cases hkv
    · have := hA pk v dl hkv
      omega
  · intro pk v dl hkv hplt
    dsimp only at hkv ⊢
    unfold kvDel at hkv
    split at hkv
    · cases hkv
    · next hne =>
        have hmem := hB pk v dl hkv hplt
        have haccdl : t < s.accessDl := by
          have := hA pk v dl hkv
          omega
        have hlivea : liveAccess s t = s.access := by
          unfold liveAccess
          rw [if_pos haccdl]
        rw [hlivea]
        rcases List.mem_map.mp hmem with ⟨e, he, rfl⟩
        refine List.mem_map_of_mem Prod.fst (List.mem_filter.mpr ⟨he, ?_⟩)
        simpa using hne
  · dsimp only
    refine (((List.filter_sublist _).map Prod.fst).nodup ?_)
    unfold liveAccess
    split
    · exact hC
    · simp
  · dsimp only
    calc ((liveAccess s t).filter (fun e => e.1 != physKey cfg k)).length
        ≤ (liveAccess s t).length := List.length_filter_le _ _
      _ ≤ s.access.length := liveAccess_length_le s t
      _ ≤ cfg.maxSize := hD
  · dsimp only
    omega

/-- Every engine operation preserves the invariant at the operation's own
time. -/
theorem invT_runOp (cfg : Cfg) (s : RState) (op : COp)
    (hmax : 1 ≤ cfg.maxSize) (h : InvT cfg s (opTime op)) :
    InvT cfg (runOp cfg s op) (opTime op) := by
  cases op with
  | cset t k v => exact invT_setItem cfg s t k v hmax h
  | cget t k => exact invT_getItem cfg s t k h
  | cdel t k => exact invT_delItem cfg s t k h

/-- Running a time-monotone trace from an invariant state lands in an
invariant state. -/
theorem invT_runOps (cfg : Cfg) (hmax : 1 ≤ cfg.maxSize) :
    ∀ (ops : List COp) (s : RState) (t : Nat), InvT cfg s t →
      List.Chain' (· ≤ ·) (t :: ops.map opTime) →
      ∃ t', InvT cfg (runOps cfg s ops) t' := by
  intro ops
  induction ops with
  | nil =>
    intro s t h _
    exact ⟨t, h⟩
  | cons op rest ih =>
    intro s t h hch
    rw [List.map_cons] at hch
    rcases List.chain'_cons.mp hch with ⟨hto, hch2⟩
    exact ih (runOp cfg s op) (opTime op)
      (invT_runOp cfg s op hmax (invT_mono cfg s h hto)) hch2

/-- Prepending the first time of a non-decreasing time list keeps it
non-decreasing. -/
theorem chain'_headD (l : List Nat) (h : List.Chain' (· ≤ ·) l) :
    List.Chain' (α := Nat) (· ≤ ·) (l.headD 0 :: l) := by
  cases l with
  | nil => simp
  | cons a tl => exact List.chain'_cons.mpr ⟨le_refl a, h⟩

/-- Traces compose. -/
theorem runOps_append (cfg : Cfg) (s : RState) (l1 l2 : List COp) :
    runOps cfg s (l1 ++ l2) = runOps cfg (runOps cfg s l1) l2 := by
  induction l1 generalizing s with
  | nil => rfl
  | cons op tl ih => exact ih (runOp cfg s op)

/-- Evaluated form of `__setitem__` on an encodable value. -/
theorem setItem_jsonable_state (cfg : Cfg) (s : RState) (t : Nat)
    (k : String) (jv : JValue) :
    setItem cfg s t k (.jsonable jv)
      = { (ensureRoom cfg s t).2 with
          kv := kvSet (ensureRoom cfg s t).2.kv (physKey cfg k)
            (.jsonBytes jv) (t + cfg.expiration)
          access := zaddOne (liveAccess (ensureRoom cfg s t).2 t)
            (physKey cfg k) t
          accessDl := t + cfg.expiration
          stats := hincr (statsAt (ensureRoom cfg s t).2 t) "SET" 1
          statDl := t + statKeyExpiration } := rfl

/-- The stat-key TTL constant is positive. -/
theorem statKeyExpiration_pos : 0 < statKeyExpiration := by
  unfold statKeyExpiration
  omega

/-- State after a burst of `set`s of distinct fresh keys (all at time `t`,
at most `max_size` many, starting from the empty store): the tracker lists
exactly the burst's physical keys, its deadline is `t + expiration`, no
eviction has been counted, and the stat key expires `statKeyExpiration`
after `t`. -/
theorem c3_burst_aux (cfg : Cfg) (t : Nat) (jv : JValue)
    (hexp : 1 ≤ cfg.expiration) :
    ∀ ks : List String, ks.Nodup → ks.length ≤ cfg.maxSize →
      ((runOps cfg initState
          (ks.map (fun k => COp.cset t k (.jsonable jv)))).access.map
          Prod.fst).Perm (ks.map (physKey cfg)) ∧
      (runOps cfg initState
          (ks.map (fun k => COp.cset t k (.jsonable jv)))).accessDl
        = (if ks = [] then 0 else t + cfg.expiration) ∧
      (runOps cfg initState
          (ks.map (fun k => COp.cset t k (.jsonable jv)))).stats "POP" = 0 ∧
      (runOps cfg initState
          (ks.map (fun k => COp.cset t k (.jsonable jv)))).statDl
        = (if ks = [] then 0 else t + statKeyExpiration) := by
  intro ks
  induction ks using List.reverseRecOn with
  | nil =>
    intro _ _
    exact ⟨by simp [runOps, initState], by simp [runOps, initState],
      by simp [runOps, initState], by simp [runOps, initState]⟩
  | append_singleton ks k ih =>
    intro hnd hlen
    rcases List.nodup_append.mp hnd with ⟨hnd1, -, hdisj⟩
    have hk : k ∉ ks := fun hkk => hdisj hkk (by simp)
    have hlen1 : ks.length ≤ cfg.maxSize := by
      simp only [List.length_append, List.length_singleton] at hlen
      omega
    obtain ⟨ihperm, ihdl, ihpop, ihstat⟩ := ih hnd1 hlen1
    set s' := runOps cfg initState
      (ks.map (fun kk => COp.cset t kk (.jsonable jv))) with hs'
    have hrw : runOps cfg initState
        ((ks ++ [k]).map (fun kk => COp.cset t kk (.jsonable jv)))
        = setItem cfg s' t k (.jsonable jv) := by
      rw [List.map_append, runOps_append]
      rfl
    rw [hrw]
    have hlenacc : s'.access.length = ks.length := by
      have h1 := ihperm.length_eq
      simpa using h1
    have hlive : liveAccess s' t = s'.access := by
      unfold liveAccess
      by_cases hke : ks = []
      · rw [ihdl, if_pos hke]
        have hnil : s'.access = [] := by simpa [hke] using ihperm
        simp [hnil]
      · rw [ihdl, if_neg hke, if_pos (by omega)]
    have hzcard : zcard s' t < cfg.maxSize := by
      unfold zcard
      rw [hlive, hlenacc]
      simp only [List.length_append, List.length_singleton] at hlen
      omega
    have hens : ensureRoom cfg s' t = (true, s') := by
      unfold ensureRoom
      rw [if_pos hzcard]
    rw [setItem_jsonable_state, hens]
    dsimp only
    have hpk : physKey cfg k ∉ s'.access.map Prod.fst := by
      intro hmem
      rw [ihperm.mem_iff] at hmem
      rcases List.mem_map.mp hmem with ⟨k', hk', heq⟩
      exact hk (physKey_inj cfg heq ▸ hk')
    have hfilter : s'.access.filter (fun e => e.1 != physKey cfg k)
        = s'.access := by
      refine List.filter_eq_self.mpr (fun e he => ?_)
      have : e.1 ≠ physKey cfg k :=
        fun hc => hpk (hc ▸ List.mem_map_of_mem Prod.fst he)
      simpa using this
    refine ⟨?_, by rw [if_neg (by simp)], ?_, by rw [if_neg (by simp)]⟩
    · rw [hlive]
      have h1 := (zaddOne_perm s'.access (physKey cfg k) t).map Prod.fst
      rw [hfilter] at h1
      rw [List.map_append]
      refine h1.trans ?_
      rw [List.map_cons]
      exact (ihperm.cons _).trans (List.perm_append_singleton _ _).symm
    · show hincr (statsAt s' t) "SET" 1 "POP" = 0
      unfold hincr
      rw [if_neg (by decide)]
      unfold statsAt
      by_cases hke : ks = []
      · rw [ihstat, if_pos hke]
        simp
      · rw [ihstat, if_neg hke,
          if_pos (by have := statKeyExpiration_pos; omega)]
        exact ihpop

/-- C3: (a) from the empty store, after any time-monotone trace the access
tracker holds at most `max_size` records — in particular after every
completed `set`; (b) a burst of `max_size + 1` sets of distinct fresh keys
triggers at least one eviction (POP becomes positive, having started at 0)
and leaves the tracker within `max_size`. -/
theorem c3_tracker_bounded :
    (∀ (cfg : Cfg) (ops : List COp), 1 ≤ cfg.maxSize → timesMono ops →
      (runOps cfg initState ops).access.length ≤ cfg.maxSize) ∧
    (∀ (cfg : Cfg) (ks : List String) (t : Nat) (jv : JValue),
      ks.Nodup → ks.length = cfg.maxSize + 1 → 1 ≤ cfg.maxSize →
      1 ≤ cfg.expiration →
      1 ≤ (runOps cfg initState
            (ks.map (fun k => COp.cset t k (.jsonable jv)))).stats "POP" ∧
      (runOps cfg initState
            (ks.map (fun k => COp.cset t k (.jsonable jv)))).access.length
        ≤ cfg.maxSize) := by
  constructor
  · intro cfg ops hmax hmono
    obtain ⟨t', hi⟩ := invT_runOps cfg hmax ops initState
      ((ops.map opTime).headD 0) (invT_init cfg _) (chain'_headD _ hmono)
    exact hi.2.2.2.1
  · intro cfg ks t jv hnd hlen hmax hexp
    rcases List.eq_nil_or_concat ks with hke | ⟨ks', k, hkc⟩
    · rw [hke] at hlen
      simp at hlen
    · subst hkc
      rw [List.concat_eq_append] at hnd hlen ⊢
      rcases List.nodup_append.mp hnd with ⟨hnd1, -, hdisj⟩
      have hlen1 : ks'.length = cfg.maxSize := by
        simp only [List.length_append, List.length_singleton] at hlen
        omega
      obtain ⟨ihperm, ihdl, ihpop, ihstat⟩ :=
        c3_burst_aux cfg t jv hexp ks' hnd1 (by omega)
      set s' := runOps cfg initState
        (ks'.map (fun kk => COp.cset t kk (.jsonable jv))) with hs'
      have hrw : runOps cfg initState
          ((ks' ++ [k]).map (fun kk => COp.cset t kk (.jsonable jv)))
          = setItem cfg s' t k (.jsonable jv) := by
        rw [List.map_append, runOps_append]
        rfl
      have hkne : ks' ≠ [] := by
        intro hc
        rw [hc] at hlen1
        simp at hlen1
        omega
      have hlenacc : s'.access.length = cfg.maxSize := by
        have h1 := ihperm.length_eq
        simp only [List.length_map] at h1
        omega
      have haccdl : s'.accessDl = t + cfg.expiration := by
        rw [ihdl, if_neg hkne]
      have hstatdl : s'.statDl = t + statKeyExpiration := by
        rw [ihstat, if_neg hkne]
      have hlive : liveAccess s' t = s'.access := by
        unfold liveAccess
        rw [if_pos (by rw [haccdl]; omega)]
      have hnodupacc : (s'.access.map Prod.fst).Nodup :=
        ihperm.nodup_iff.mpr (hnd1.map (fun a b h => physKey_inj cfg h))
      have hzc : ¬ zcard s' t < cfg.maxSize := by
        unfold zcard
        rw [hlive, hlenacc]
        omega
      have hocs : onceCleanSize cfg.maxSize < cfg.maxSize :=
        Nat.div_lt_self (by omega) (by omega)
      have e1 : (ensureRoom cfg s' t).2.stats "POP"
          = ((onceCleanSize cfg.maxSize + 1 : Nat) : Int) := by
        unfold ensureRoom
        rw [if_neg hzc]
        dsimp only
        show hincr (statsAt s' t) "POP" _ "POP" = _
        unfold hincr
        rw [if_pos rfl]
        unfold statsAt
        rw [if_pos (by rw [hstatdl]; have := statKeyExpiration_pos; omega)]
        rw [ihpop, hlive]
        simp only [List.length_map, List.length_take, hlenacc]
        rw [Nat.min_eq_left (by omega)]
        omega
      have e2 : (ensureRoom cfg s' t).2.statDl = t + statKeyExpiration := by
        unfold ensureRoom
        rw [if_neg hzc]
        exact hstatdl
      have e3 : (ensureRoom cfg s' t).2.accessDl = t + cfg.expiration := by
        unfold ensureRoom
        rw [if_neg hzc]
        exact haccdl
      have e4 : (ensureRoom cfg s' t).2.access.length
          = cfg.maxSize - (onceCleanSize cfg.maxSize + 1) := by
        unfold ensureRoom
        rw [if_neg hzc]
        dsimp only
        rw [hlive, filter_take_drop s'.access _ hnodupacc,
          List.length_drop, hlenacc]
      constructor
      · rw [hrw, setItem_jsonable_state]
        show hincr (statsAt (ensureRoom cfg s' t).2 t) "SET" 1 "POP" ≥ 1
        unfold hincr
        rw [if_neg (by decide)]
        unfold statsAt
        rw [if_pos (by rw [e2]; have := statKeyExpiration_pos; omega), e1]
        have h1 : (1 : Nat) ≤ onceCleanSize cfg.maxSize + 1 := by omega
        exact_mod_cast h1
      · rw [hrw, setItem_jsonable_state]
        show (zaddOne (liveAccess (ensureRoom cfg s' t).2 t)
          (physKey cfg k) t).length ≤ cfg.maxSize
        rw [zaddOne_length]
        have hlivs1 : liveAccess (ensureRoom cfg s' t).2 t
            = (ensureRoom cfg s' t).2.access := by
          unfold liveAccess
          rw [if_pos (by rw [e3]; omega)]
        rw [hlivs1]
        have hfle := List.length_filter_le (fun e => e.1 != physKey cfg k)
          (ensureRoom cfg s' t).2.access
        rw [e4] at hfle
        omega

/-- Witness for C3: a single set stays within bound, and a burst of
4 distinct sets against capacity 3 pops at least one entry while keeping
the tracker within 3. -/
theorem c3_witness :
    ((runOps cfgW initState [.cset 0 "a" (.jsonable .jnull)]).access.length
      ≤ cfgW.maxSize) ∧
    (1 ≤ (runOps cfgW initState
        (["a", "b", "c", "d"].map
          (fun k => COp.cset 0 k (.jsonable .jnull)))).stats "POP" ∧
     (runOps cfgW initState
        (["a", "b", "c", "d"].map
          (fun k => COp.cset 0 k (.jsonable .jnull)))).access.length
      ≤ cfgW.maxSize) :=
  ⟨c3_tracker_bounded.1 cfgW [.cset 0 "a" (.jsonable .jnull)] (by decide)
      (by unfold timesMono; simp),
   c3_tracker_bounded.2 cfgW ["a", "b", "c", "d"] 0 .jnull (by decide)
      (by decide) (by decide) (by decide)⟩

/-- Evaluated key-computation step of `inner` with the plain (non-typed)
hasher. -/
theorem innerCall_eval_plain (cfg : Cfg)
    (func : List PyVal → List (String × PyVal) → PyObj) (s : RState)
    (now : Nat) (args : List PyVal) (kwargs : List (String × PyVal))
    (h : Int) (hh : hashArgs args kwargs = some h) :
    innerCall cfg false 0 0 func s now args kwargs
      = (match getItem cfg s now (hexKey h) with
         | (some v, s1) => (.ok (.jsonable v), s1, 0)
         | (none, s1) =>
            (.ok (func args kwargs),
             setItem cfg s1 now (hexKey h) (func args kwargs), 1)) := by
  unfold innerCall
  simp only [Bool.false_eq_true, if_false, hh]

/-- C5 counterexample to the claim as stated: two pairs of back-to-back
identical decorated calls during which the wrapped callable runs twice,
not once.  (1) With the default hasher but a return value `json.dumps`
cannot encode, the `set` silently degrades (DUMPS_ERROR), nothing is
cached and the second call misses again.  (2) With `typed_hash_args=True`
and an encodable value, the generator-identity hashing gives the second
call a different key (generator ids 16, 32 then 48, 64), so it misses and
re-invokes. -/
theorem c5_counterexample :
    ((innerCall cfgW false 0 0 (fun _ _ => PyObj.unjsonable) initState 0
        [.vint 1] []).2.2
      + (innerCall cfgW false 0 0 (fun _ _ => PyObj.unjsonable)
          (innerCall cfgW false 0 0 (fun _ _ => PyObj.unjsonable) initState 0
            [.vint 1] []).2.1
          0 [.vint 1] []).2.2 = 2) ∧
    ((innerCall cfgW true 16 32 (fun _ _ => PyObj.jsonable (.jnum 7))
        initState 0 [.vint 1] []).2.2
      + (innerCall cfgW true 48 64 (fun _ _ => PyObj.jsonable (.jnum 7))
          (innerCall cfgW true 16 32 (fun _ _ => PyObj.jsonable (.jnum 7))
            initState 0 [.vint 1] []).2.1
          0 [.vint 1] []).2.2 = 2) := by
  constructor <;> decide

/-- C5 (amended): with the default (non-typed) hasher, hashable arguments
and a JSON-encodable return value, a decorated call from a fresh cache
followed before expiry by a call with the same arguments invokes the
wrapped callable exactly once across both calls; the second call returns
the cached value without invoking it. -/
theorem c5_amended_memoize_once (cfg : Cfg)
    (func : List PyVal → List (String × PyVal) → PyObj)
    (args : List PyVal) (kwargs : List (String × PyVal)) (h : Int)
    (v : JValue) (now1 now2 : Nat)
    (hh : hashArgs args kwargs = some h)
    (hf : func args kwargs = .jsonable v)
    (h12 : now1 ≤ now2) (hlt : now2 < now1 + cfg.expiration) :
    (innerCall cfg false 0 0 func initState now1 args kwargs).2.2 = 1 ∧
    (innerCall cfg false 0 0 func
        (innerCall cfg false 0 0 func initState now1 args kwargs).2.1
        now2 args kwargs).2.2 = 0 ∧
    (innerCall cfg false 0 0 func
        (innerCall cfg false 0 0 func initState now1 args kwargs).2.1
        now2 args kwargs).1 = .ok (.jsonable v) ∧
    (innerCall cfg false 0 0 func initState now1 args kwargs).1
      = .ok (.jsonable v) := by
  have hr1 : innerCall cfg false 0 0 func initState now1 args kwargs
      = (.ok (.jsonable v),
         setItem cfg
           { initState with stats := hincr (statsAt initState now1) "MISS" 1
                            statDl := now1 + statKeyExpiration }
           now1 (hexKey h) (.jsonable v), 1) := by
    rw [innerCall_eval_plain cfg func initState now1 args kwargs h hh,
      getItem_miss_state cfg initState now1 (hexKey h) rfl]
    dsimp only
    rw [hf]
  have hkv2 : kvGet
      (setItem cfg
        { initState with stats := hincr (statsAt initState now1) "MISS" 1
                         statDl := now1 + statKeyExpiration }
        now1 (hexKey h) (.jsonable v)) now2 (physKey cfg (hexKey h))
      = some (.jsonBytes v) := by
    unfold kvGet
    rw [setItem_kv_same cfg _ now1 (hexKey h) (.jsonable v) (.jsonBytes v) rfl]
    dsimp only
    rw [if_pos hlt]
  have hr2 : innerCall cfg false 0 0 func
      (setItem cfg
        { initState with stats := hincr (statsAt initState now1) "MISS" 1
                         statDl := now1 + statKeyExpiration }
        now1 (hexKey h) (.jsonable v)) now2 args kwargs
      = (.ok (.jsonable v),
         (getItem cfg
           (setItem cfg
             { initState with stats := hincr (statsAt initState now1) "MISS" 1
                              statDl := now1 + statKeyExpiration }
             now1 (hexKey h) (.jsonable v)) now2 (hexKey h)).2, 0) := by
    rw [innerCall_eval_plain cfg func _ now2 args kwargs h hh,
      getItem_hit_state cfg _ now2 (hexKey h) (.jsonBytes v) v hkv2 rfl]
  rw [hr1]
  dsimp only
  rw [hr2]
  exact ⟨rfl, rfl, rfl, rfl⟩

/-- Witness for the amended C5 at a concrete decorated function: one
invocation across two identical calls, the second served from cache. -/
theorem c5_witness :
    (innerCall cfgW false 0 0 (fun _ _ => PyObj.jsonable (.jnum 7))
        initState 0 [.vint 1] []).2.2 = 1 ∧
    (innerCall cfgW false 0 0 (fun _ _ => PyObj.jsonable (.jnum 7))
        (innerCall cfgW false 0 0 (fun _ _ => PyObj.jsonable (.jnum 7))
          initState 0 [.vint 1] []).2.1
        1 [.vint 1] []).2.2 = 0 ∧
    (innerCall cfgW false 0 0 (fun _ _ => PyObj.jsonable (.jnum 7))
        (innerCall cfgW false 0 0 (fun _ _ => PyObj.jsonable (.jnum 7))
          initState 0 [.vint 1] []).2.1
        1 [.vint 1] []).1 = .ok (.jsonable (.jnum 7)) ∧
    (innerCall cfgW false 0 0 (fun _ _ => PyObj.jsonable (.jnum 7))
        initState 0 [.vint 1] []).1 = .ok (.jsonable (.jnum 7)) :=
  c5_amended_memoize_once cfgW (fun _ _ => PyObj.jsonable (.jnum 7))
    [.vint 1] [] 7012041675180395583 (.jnum 7) 0 1 rfl rfl
    (by decide) (by decide)

end RedisLRU
